import Mathlib

/-!
Shallow embedding of the Ducky AI Assistant terminal application
(`src/main.rs`, `src/ui_pages.rs`): the navigation state machine (`App`
and the key dispatch of `run_app`), the banner rendering/caching layer
(`ascii_art_cached` with its global `ASCII_CACHE`), and the terminal
setup/teardown sequence of `main`.
-/

namespace Ducky

/-- The `Screen` enum of `main.rs`. -/
inductive Screen where
  | Main
  | TodoList
  | Calendar
  | Obsidian
  | WorkingOutPad
  | Configuration
deriving DecidableEq, Repr

/-- The subset of `ratatui::style::Color` values used as cache-key components.
`rgb`/`indexed` keep the type faithful to the structural equality of the Rust
enum; the program itself only passes `red`. -/
inductive Color where
  | reset
  | black
  | red
  | green
  | yellow
  | blue
  | magenta
  | cyan
  | gray
  | white
  | rgb (r g b : Nat)
  | indexed (n : Nat)
deriving DecidableEq, Repr

/-- Style modifiers (`ratatui::style::Modifier` bits). -/
inductive Modifier where
  | bold
  | dim
  | italic
  | underlined
  | reversed
deriving DecidableEq, Repr

/-- `ratatui::style::Style`: `Style::default()` has no colors and no
modifiers; `.fg(c)` sets the foreground; `.add_modifier(m)` appends a bit. -/
structure Style where
  fg : Option Color
  bg : Option Color
  addModifier : List Modifier
deriving DecidableEq, Repr

/-- `Style::default()`. -/
def Style.default : Style := ⟨none, none, []⟩

/-- `Style::fg`. -/
def Style.withFg (s : Style) (c : Color) : Style := { s with fg := some c }

/-- `ratatui::text::Span`: a content string plus a style. -/
structure Span where
  content : String
  style : Style
deriving DecidableEq, Repr

/-- `Span::styled`. -/
def Span.styled (content : String) (style : Style) : Span := ⟨content, style⟩

/-- `ratatui::text::Line` built from a single span (`Line::from(span)`). -/
structure RLine where
  spans : List Span
deriving DecidableEq, Repr

/-- `Line::from(span)`. -/
def RLine.fromSpan (s : Span) : RLine := ⟨[s]⟩

/-! ### The navigation state machine (`App`) -/

/-- The `App` struct of `main.rs`. -/
structure App where
  menu_items : List String
  selected : Nat
  screen : Screen
deriving DecidableEq, Repr

/-- `App::new()`. -/
def App.new : App :=
  { menu_items := ["🐄  TODO list", "⚡  Calendar", "🚀  Obsidian", "🦐  Working out Pad"]
    selected := 0
    screen := Screen.Main }

/-- `App::next`: `self.selected = (self.selected + 1) % self.menu_items.len()`. -/
def App.next (a : App) : App :=
  { a with selected := (a.selected + 1) % a.menu_items.length }

/-- `App::previous`: wraps from 0 to `len - 1`, otherwise decrements. -/
def App.previous (a : App) : App :=
  { a with selected := if a.selected = 0 then a.menu_items.length - 1 else a.selected - 1 }

/-- The `match self.selected` block inside `App::open_selected`. -/
def screenOf (i : Nat) : Screen :=
  match i with
  | 0 => Screen.TodoList
  | 1 => Screen.Calendar
  | 2 => Screen.Obsidian
  | 3 => Screen.WorkingOutPad
  | 4 => Screen.Configuration
  | _ => Screen.Main

/-- `App::open_selected`: `self.screen` becomes the screen mapped from
`self.selected`. -/
def App.open_selected (a : App) : App :=
  { a with screen := screenOf a.selected }

/-- `App::back_to_main`. -/
def App.back_to_main (a : App) : App :=
  { a with screen := Screen.Main }

/-- The crossterm `KeyCode` variants the dispatch in `run_app` distinguishes;
`other` stands for every remaining variant (all fall into the `_` arm). -/
inductive KeyCode where
  | char (c : Char)
  | down
  | up
  | enter
  | esc
  | other
deriving DecidableEq, Repr

/-- The crossterm `Event` variants matched in `run_app`. -/
inductive Ev where
  | key (code : KeyCode)
  | mouse
  | resize
  | focusGained
  | focusLost
  | paste
deriving DecidableEq, Repr

/-- Result of one dispatch step of `run_app`: either the loop returns
(`return Ok(())`, quitting the process cleanly) or it continues with an
updated `App`. -/
inductive StepResult where
  | quit
  | cont (a : App)
deriving DecidableEq, Repr

/-- One iteration of the event dispatch in `run_app`, linearizing the Rust
`match (app.screen, code)` arms in source order (first match wins):
1. `(Main, Char('q') | Esc)` → return
2. `(Main, Down | Char('j'))` → `next`
3. `(Main, Up | Char('k'))` → `previous`
4. `(Main, Enter)` → `open_selected`
5. `(screen, Esc) | (screen, Char('q')) if screen != Main` → `back_to_main`
6. `(_, Char('h'))` → `back_to_main`
7. `_` → no change; mouse/resize/focus/paste events are ignored. -/
def step (a : App) (e : Ev) : StepResult :=
  match e with
  | Ev.key code =>
    if a.screen = Screen.Main ∧ (code = KeyCode.char 'q' ∨ code = KeyCode.esc) then
      StepResult.quit
    else if a.screen = Screen.Main ∧ (code = KeyCode.down ∨ code = KeyCode.char 'j') then
      StepResult.cont a.next
    else if a.screen = Screen.Main ∧ (code = KeyCode.up ∨ code = KeyCode.char 'k') then
      StepResult.cont a.previous
    else if a.screen = Screen.Main ∧ code = KeyCode.enter then
      StepResult.cont a.open_selected
    else if (code = KeyCode.esc ∨ code = KeyCode.char 'q') ∧ a.screen ≠ Screen.Main then
      StepResult.cont a.back_to_main
    else if code = KeyCode.char 'h' then
      StepResult.cont a.back_to_main
    else
      StepResult.cont a
  | Ev.mouse => StepResult.cont a
  | Ev.resize => StepResult.cont a
  | Ev.focusGained => StepResult.cont a
  | Ev.focusLost => StepResult.cont a
  | Ev.paste => StepResult.cont a

/-- Feeding a list of events through `step`, stopping at `quit`. -/
def runEvents (a : App) : List Ev → StepResult
  | [] => StepResult.cont a
  | e :: es =>
    match step a e with
    | StepResult.quit => StepResult.quit
    | StepResult.cont a₂ => runEvents a₂ es

/-- States reachable from the initial `App::new()` via dispatch steps that
continue the loop. -/
inductive Reachable : App → Prop where
  | init : Reachable App.new
  | step {a a₂ : App} {e : Ev} : Reachable a → step a e = StepResult.cont a₂ → Reachable a₂

/-- Applying a state operation `k` times in a row. -/
def iterOp (f : App → App) : Nat → App → App
  | 0, a => a
  | k + 1, a => iterOp f k (f a)

/-! ### The banner rendering and caching layer (`ascii_art_cached`) -/

/-- Split a character sequence at newline characters. This is the plain
split (every newline separates two pieces, `splitNl []` yields one empty
piece); the terminator handling of Rust `str::lines` is done in `rustLines`. -/
def splitNl : List Char → List (List Char)
  | [] => [[]]
  | c :: rest =>
    if c = '\n' then [] :: splitNl rest
    else
      match splitNl rest with
      | [] => [[c]]
      | l :: ls => (c :: l) :: ls

/-- Strip one trailing carriage return, as Rust `str::lines` does on each
piece. -/
def stripCR (l : List Char) : List Char :=
  match l.reverse with
  | '\r' :: rest => rest.reverse
  | _ => l

/-- Rust `str::lines`: split at newlines with the final line ending optional
(`split_terminator` semantics — a trailing empty piece is dropped), then
strip a trailing carriage return from each line. In particular `"".lines()`
is empty. -/
def rustLines (s : String) : List String :=
  let parts := splitNl s.data
  let parts :=
    match parts.reverse with
    | [] :: rest => rest.reverse
    | _ => parts
  parts.map (fun l => String.mk (stripCR l))

/-- Rust `text.len()`: the UTF-8 byte length of the string. -/
def rustLen (s : String) : Nat :=
  (s.data.map Char.utf8Size).sum

/-- Outcome of the `std::process::Command::new("figlet")...output()` call:
either the process could not be launched / an I/O error occurred
(`launchError`, the Rust `Err` case), or the process exited with the given
success status and standard output (already decoded, as by
`String::from_utf8_lossy`). -/
inductive FigletOutcome where
  | launchError
  | exited (success : Bool) (stdout : String)
deriving DecidableEq, Repr

/-- Whether the outcome counts as a failure for `ascii_art_cached`:
everything except a successful exit (`Ok(out) if out.status.success()`). -/
def FigletOutcome.failed : FigletOutcome → Bool
  | FigletOutcome.launchError => true
  | FigletOutcome.exited success _ => !success

/-- The fallback string built by the `format!` call in `ascii_art_cached`:
a top border `"+" ++ line ++ "+"`, a newline, a middle line
`"| " ++ text ++ " |"`, a newline, and a bottom border equal to the top,
where `line = "-".repeat(text.len() + 2)`. -/
def fallbackString (text : String) : String :=
  let line := String.mk (List.replicate (rustLen text + 2) '-')
  "+" ++ line ++ "+\n| " ++ text ++ " |\n+" ++ line ++ "+"

/-- One rendered line: `Line::from(Span::styled(line, Style::default().fg(colour)))`. -/
def styledLine (content : String) (colour : Color) : RLine :=
  RLine.fromSpan (Span.styled content (Style.default.withFg colour))

/-- The `match output` block of `ascii_art_cached`: on a successful exit the
standard output is split into lines, each styled with the requested colour;
on any failure the fallback box string is split and styled the same way. -/
def renderBanner (outcome : FigletOutcome) (text : String) (colour : Color) : List RLine :=
  match outcome with
  | FigletOutcome.exited true stdout =>
    (rustLines stdout).map (fun l => styledLine l colour)
  | _ =>
    (rustLines (fallbackString text)).map (fun l => styledLine l colour)

/-- The cache key type `(String, String, Color)`. -/
abbrev AsciiKey := String × String × Color

/-- The global `ASCII_CACHE` map, modelled as an association list with
`HashMap` lookup/insert semantics (structural key equality). -/
abbrev Cache := List (AsciiKey × List RLine)

/-- `HashMap::get`. -/
def cacheGet : Cache → AsciiKey → Option (List RLine)
  | [], _ => none
  | (k₂, v) :: rest, k => if k = k₂ then some v else cacheGet rest k

/-- `HashMap::insert`: replaces the value when the key is present, appends
otherwise. -/
def cacheInsert : Cache → AsciiKey → List RLine → Cache
  | [], k, v => [(k, v)]
  | (k₂, v₂) :: rest, k, v =>
    if k = k₂ then (k, v) :: rest else (k₂, v₂) :: cacheInsert rest k v

/-- `ascii_art_cached(text, font, colour)`: look up `(text, font, colour)` in
the cache and return the clone of the stored lines on a hit; otherwise invoke
figlet (`figlet` maps font and text to the subprocess outcome for this
invocation), style the result or the fallback, store it, and return it.
The third component counts how many times the external mechanism was
invoked during this call (0 on a hit, 1 on a miss). -/
def ascii_art_cached (figlet : String → String → FigletOutcome) (cache : Cache)
    (text font : String) (colour : Color) : List RLine × Cache × Nat :=
  let key : AsciiKey := (text, font, colour)
  match cacheGet cache key with
  | some cached => (cached, cache, 0)
  | none =>
    let ascii_lines := renderBanner (figlet font text) text colour
    (ascii_lines, cacheInsert cache key ascii_lines, 1)

/-- A figlet oracle that always fails to launch (used by witnesses). -/
def figFail : String → String → FigletOutcome := fun _ _ => FigletOutcome.launchError

/-- Concrete cached line sequence (used by witnesses). -/
def demoLines : List RLine :=
  [styledLine "+-------+" Color.red, styledLine "| Ducky |" Color.red,
   styledLine "+-------+" Color.red]

/-- Concrete cache holding an entry for `("Ducky", "alligator", Red)`
(used by witnesses). -/
def demoCache : Cache := [(("Ducky", "alligator", Color.red), demoLines)]

/-! ### The terminal setup/teardown sequence of `main` -/

/-- The observable terminal/process actions performed by `main`. -/
inductive TermAction where
  | enableRaw
  | enterAltScreen
  | newTerminal
  | runAppCall
  | disableRaw
  | leaveAltScreen
  | showCursor
  | printErr
deriving DecidableEq, Repr

/-- Environment for one execution of `main`: which fallible operation
succeeds, and whether `run_app` returns `Ok` (clean quit) or `Err`
(failure during the main loop). -/
structure TermEnv where
  enableRawOk : Bool
  enterAltOk : Bool
  newTermOk : Bool
  runAppOk : Bool
  disableRawOk : Bool
  leaveAltOk : Bool
  showCursorOk : Bool
deriving DecidableEq, Repr

/-- The `main` function of `main.rs` as a trace semantics: the list of
actions attempted in order, and the process exit code. Each `?` on a failed
operation returns the error from `main`, which the Rust runtime reports and
turns into exit code 1; after `run_app` returns, the restore sequence
(`disable_raw_mode`, `LeaveAlternateScreen`/`DisableMouseCapture`,
`show_cursor`) runs before the saved `run_app` result is examined; an `Err`
result is printed and the process exits with code 1, otherwise `main`
returns `Ok(())` and the process exits with code 0. -/
def mainProc (env : TermEnv) : List TermAction × Nat :=
  if !env.enableRawOk then ([TermAction.enableRaw], 1)
  else if !env.enterAltOk then ([TermAction.enableRaw, TermAction.enterAltScreen], 1)
  else if !env.newTermOk then
    ([TermAction.enableRaw, TermAction.enterAltScreen, TermAction.newTerminal], 1)
  else
    let setup := [TermAction.enableRaw, TermAction.enterAltScreen, TermAction.newTerminal,
      TermAction.runAppCall]
    if !env.disableRawOk then (setup ++ [TermAction.disableRaw], 1)
    else if !env.leaveAltOk then (setup ++ [TermAction.disableRaw, TermAction.leaveAltScreen], 1)
    else if !env.showCursorOk then
      (setup ++ [TermAction.disableRaw, TermAction.leaveAltScreen, TermAction.showCursor], 1)
    else if !env.runAppOk then
      (setup ++ [TermAction.disableRaw, TermAction.leaveAltScreen, TermAction.showCursor,
        TermAction.printErr], 1)
    else (setup ++ [TermAction.disableRaw, TermAction.leaveAltScreen, TermAction.showCursor], 0)

end Ducky

namespace Ducky

/-! ## Helper lemmas -/

theorem cacheGet_insert_self (m : Cache) (k : AsciiKey) (v : List RLine) :
    cacheGet (cacheInsert m k v) k = some v := by
  induction m with
  | nil => simp [cacheInsert, cacheGet]
  | cons p rest ih =>
    obtain ⟨k₂, v₂⟩ := p
    by_cases h : k = k₂
    · simp [cacheInsert, cacheGet, h]
    · simp [cacheInsert, cacheGet, h, ih]

theorem cacheGet_insert_ne (m : Cache) (k k₂ : AsciiKey) (v : List RLine) (h : k ≠ k₂) :
    cacheGet (cacheInsert m k₂ v) k = cacheGet m k := by
  induction m with
  | nil => simp [cacheInsert, cacheGet, h]
  | cons p rest ih =>
    obtain ⟨k₃, v₃⟩ := p
    by_cases h₂ : k₂ = k₃
    · subst h₂
      simp [cacheInsert, cacheGet, h]
    · simp [cacheInsert, cacheGet, h₂, ih]

theorem splitNl_of_not_mem (l : List Char) (h : '\n' ∉ l) : splitNl l = [l] := by
  induction l with
  | nil => rfl
  | cons c rest ih =>
    simp only [List.mem_cons, not_or] at h
    have hc : ¬(c = '\n') := fun hc => h.1 hc.symm
    simp [splitNl, hc, ih h.2]

theorem splitNl_append_nl (a b : List Char) (h : '\n' ∉ a) :
    splitNl (a ++ '\n' :: b) = a :: splitNl b := by
  induction a with
  | nil => simp [splitNl]
  | cons c rest ih =>
    simp only [List.mem_cons, not_or] at h
    have hc : ¬(c = '\n') := fun hc => h.1 hc.symm
    simp [splitNl, hc, ih h.2]

theorem stripCR_last_ne (l : List Char) (c : Char) (h : c ≠ '\r') :
    stripCR (l ++ [c]) = l ++ [c] := by
  unfold stripCR
  rw [List.reverse_append, List.reverse_singleton, List.singleton_append]
  split
  · rename_i rest heq
    injection heq with h1 h2
    exact absurd h1 h
  · rfl

/-! ## Claim theorems -/

/-- C1: once the cache holds an entry for a key, a call to
`ascii_art_cached` with that key returns exactly the stored sequence,
leaves the cache unchanged and performs zero external invocations; and two
successive calls with identical arguments (under arbitrary figlet outcomes
for each call) return structurally equal results with at most one external
invocation across both calls. -/
theorem cached_render_memoizes
    (f₁ f₂ : String → String → FigletOutcome) (cache : Cache)
    (text font : String) (colour : Color) :
    (∀ v, cacheGet cache (text, font, colour) = some v →
      ascii_art_cached f₁ cache text font colour = (v, cache, 0)) ∧
    (ascii_art_cached f₂ (ascii_art_cached f₁ cache text font colour).2.1 text font colour).1
      = (ascii_art_cached f₁ cache text font colour).1 ∧
    (ascii_art_cached f₁ cache text font colour).2.2
      + (ascii_art_cached f₂ (ascii_art_cached f₁ cache text font colour).2.1
          text font colour).2.2 ≤ 1 := by
  refine ⟨fun v hv => by simp [ascii_art_cached, hv], ?_⟩
  cases h : cacheGet cache (text, font, colour) with
  | some v => simp [ascii_art_cached, h]
  | none => simp [ascii_art_cached, h, cacheGet_insert_self]

/-- C1 witness: on a cache already holding the key
`("Ducky", "alligator", Red)`, the call returns the stored lines, the
unchanged cache, and zero invocations. -/
theorem cached_render_memoizes_witness :
    ascii_art_cached figFail demoCache "Ducky" "alligator" Color.red
      = (demoLines, demoCache, 0) :=
  (cached_render_memoizes figFail figFail demoCache "Ducky" "alligator" Color.red).1
    demoLines (by decide)

/-- C6: the cache is write-once-per-key: once a key maps to a stored value,
any later `ascii_art_cached` call (with that key or any other) leaves the
stored value for that key unchanged. -/
theorem cache_write_once
    (f : String → String → FigletOutcome) (cache : Cache) (k : AsciiKey)
    (text font : String) (colour : Color) (v : List RLine)
    (hv : cacheGet cache k = some v) :
    cacheGet (ascii_art_cached f cache text font colour).2.1 k = some v := by
  cases h : cacheGet cache (text, font, colour) with
  | some w => simpa [ascii_art_cached, h] using hv
  | none =>
    by_cases hk : k = (text, font, colour)
    · subst hk
      rw [hv] at h
      cases h
    · simpa [ascii_art_cached, h, cacheGet_insert_ne _ _ _ _ hk] using hv

/-- C6 witness: a later call with a different key preserves the stored
entry for `("Ducky", "alligator", Red)`. -/
theorem cache_write_once_witness :
    cacheGet (ascii_art_cached figFail demoCache "Other" "标准" Color.blue).2.1
      ("Ducky", "alligator", Color.red) = some demoLines :=
  cache_write_once figFail demoCache ("Ducky", "alligator", Color.red)
    "Other" "标准" Color.blue demoLines (by decide)

/-- C7: on a successful external invocation, the render operation returns
exactly one line per line of the process standard output, in order, each a
single span whose content is the literal output line and whose style has
foreground set to the requested colour, no background and no modifiers. -/
theorem render_success_styles_stdout (stdout text : String) (colour : Color) :
    renderBanner (FigletOutcome.exited true stdout) text colour
      = (rustLines stdout).map
          (fun l => RLine.mk [Span.mk l (Style.mk (some colour) none [])]) ∧
    (renderBanner (FigletOutcome.exited true stdout) text colour).length
      = (rustLines stdout).length := by
  constructor
  · rfl
  · simp [renderBanner]

/-- C10: success is judged solely by exit status: a successful exit with
empty standard output yields the empty line sequence, not the fallback
box. -/
theorem render_empty_success_is_empty (text : String) (colour : Color) :
    renderBanner (FigletOutcome.exited true "") text colour = [] := rfl

/-- C2 counterexample: the claim quantifies over every text input, but for a
text containing a newline character the fallback box has four lines, not
three (the middle line is split by the embedded newline). -/
theorem render_failure_three_lines_counterexample :
    (renderBanner FigletOutcome.launchError "a\nb" Color.red).length = 4 ∧
    ¬((renderBanner FigletOutcome.launchError "a\nb" Color.red).length = 3) := by
  decide

/-- C2 (amended: for every text input not containing a newline character):
when the external invocation fails for any reason, the render operation
returns exactly three lines — a top border of dashes of length
`text.len() + 2` wrapped in plus signs, a middle line of the text between
vertical bars, and a bottom border identical to the top — each a single
span styled with the requested colour. -/
theorem render_failure_fallback_box (text : String) (colour : Color) (o : FigletOutcome)
    (hfail : o.failed = true) (hnl : '\n' ∉ text.data) :
    renderBanner o text colour =
      [styledLine ("+" ++ String.mk (List.replicate (rustLen text + 2) '-') ++ "+") colour,
       styledLine ("| " ++ text ++ " |") colour,
       styledLine ("+" ++ String.mk (List.replicate (rustLen text + 2) '-') ++ "+") colour] := by
  obtain ⟨cs⟩ := text
  replace hnl : '\n' ∉ cs := hnl
  have hb : renderBanner o (String.mk cs) colour
      = (rustLines (fallbackString (String.mk cs))).map (fun l => styledLine l colour) := by
    cases o with
    | launchError => rfl
    | exited success stdout =>
      cases success with
      | true => simp [FigletOutcome.failed] at hfail
      | false => rfl
  rw [hb]
  set n := rustLen (String.mk cs) + 2 with hn
  have hdata : (fallbackString (String.mk cs)).data
      = ('+' :: (List.replicate n '-' ++ ['+']))
        ++ '\n' :: (('|' :: ' ' :: (cs ++ [' ', '|']))
        ++ '\n' :: ('+' :: (List.replicate n '-' ++ ['+']))) := by
    simp [fallbackString, String.data_append, List.append_assoc, hn]
  have hne1 : ('\n' : Char) ≠ '+' := by decide
  have hne2 : ('\n' : Char) ≠ '-' := by decide
  have hne3 : ('\n' : Char) ≠ '|' := by decide
  have hne4 : ('\n' : Char) ≠ ' ' := by decide
  have hnlb : '\n' ∉ ('+' :: (List.replicate n '-' ++ ['+']) : List Char) := by
    simp [List.mem_cons, List.mem_append, List.mem_replicate, hne1, hne2]
  have hnlm : '\n' ∉ ('|' :: ' ' :: (cs ++ [' ', '|']) : List Char) := by
    simp [List.mem_cons, List.mem_append, hne3, hne4, hnl]
  have hparts : splitNl (fallbackString (String.mk cs)).data
      = [('+' :: (List.replicate n '-' ++ ['+']) : List Char),
         '|' :: ' ' :: (cs ++ [' ', '|']),
         '+' :: (List.replicate n '-' ++ ['+'])] := by
    rw [hdata, splitNl_append_nl _ _ hnlb, splitNl_append_nl _ _ hnlm,
      splitNl_of_not_mem _ hnlb]
  have hplus : ('+' : Char) ≠ '\r' := by decide
  have hbar : ('|' : Char) ≠ '\r' := by decide
  have e1 : ('+' :: (List.replicate n '-' ++ ['+']) : List Char)
      = ('+' :: List.replicate n '-') ++ ['+'] := rfl
  have e2 : ('|' :: ' ' :: (cs ++ [' ', '|']) : List Char)
      = ('|' :: ' ' :: (cs ++ [' '])) ++ ['|'] := by
    simp [List.append_assoc]
  have hstrip1 : stripCR ('+' :: (List.replicate n '-' ++ ['+']))
      = '+' :: (List.replicate n '-' ++ ['+']) := by
    rw [e1, stripCR_last_ne _ _ hplus]
  have hstrip2 : stripCR ('|' :: ' ' :: (cs ++ [' ', '|']))
      = '|' :: ' ' :: (cs ++ [' ', '|']) := by
    rw [e2, stripCR_last_ne _ _ hbar]
  rw [rustLines]
  rw [hparts]
  simp only [List.reverse_cons, List.reverse_nil, List.nil_append, List.singleton_append,
    List.cons_append]
  simp only [List.map_cons, List.map_nil, hstrip1, hstrip2]
  rfl

/-- C2 witness: the fallback box for text Ducky under a failed launch. -/
theorem render_failure_fallback_box_witness :
    renderBanner FigletOutcome.launchError "Ducky" Color.red
      = [styledLine "+-------+" Color.red, styledLine "| Ducky |" Color.red,
         styledLine "+-------+" Color.red] := by
  have h := render_failure_fallback_box "Ducky" Color.red FigletOutcome.launchError
    (by decide) (by decide)
  rw [h]
  rfl

theorem previous_selected (a : App) (h0 : 0 < a.menu_items.length)
    (hs : a.selected < a.menu_items.length) :
    a.previous.selected = (a.selected + (a.menu_items.length - 1)) % a.menu_items.length := by
  show (if a.selected = 0 then a.menu_items.length - 1 else a.selected - 1)
    = (a.selected + (a.menu_items.length - 1)) % a.menu_items.length
  by_cases h : a.selected = 0
  · rw [if_pos h, h, Nat.zero_add, Nat.mod_eq_of_lt (by omega)]
  · rw [if_neg h]
    have e : a.selected + (a.menu_items.length - 1) = (a.selected - 1) + a.menu_items.length := by
      omega
    rw [e, Nat.add_mod_right, Nat.mod_eq_of_lt (by omega)]

theorem iter_next_selected (k : Nat) (a : App) (h0 : 0 < a.menu_items.length)
    (hs : a.selected < a.menu_items.length) :
    (iterOp App.next k a).selected = (a.selected + k) % a.menu_items.length := by
  induction k generalizing a with
  | zero => simp [iterOp, Nat.mod_eq_of_lt hs]
  | succ k ih =>
    rw [iterOp]
    have hnext : a.next.selected < a.next.menu_items.length := Nat.mod_lt _ (by omega)
    rw [ih a.next h0 hnext]
    show ((a.selected + 1) % a.menu_items.length + k) % a.menu_items.length
      = (a.selected + (k + 1)) % a.menu_items.length
    rw [Nat.mod_add_mod]
    congr 1
    omega

theorem iter_previous_selected (k : Nat) (a : App) (h0 : 0 < a.menu_items.length)
    (hs : a.selected < a.menu_items.length) :
    (iterOp App.previous k a).selected
      = (a.selected + k * (a.menu_items.length - 1)) % a.menu_items.length := by
  induction k generalizing a with
  | zero => simp [iterOp, Nat.mod_eq_of_lt hs]
  | succ k ih =>
    rw [iterOp]
    have heq := previous_selected a h0 hs
    have hprev : a.previous.selected < a.previous.menu_items.length := by
      rw [heq]
      exact Nat.mod_lt _ (by omega)
    rw [ih a.previous h0 hprev]
    show (a.previous.selected + k * (a.menu_items.length - 1)) % a.menu_items.length
      = (a.selected + (k + 1) * (a.menu_items.length - 1)) % a.menu_items.length
    rw [heq, Nat.mod_add_mod]
    congr 1
    ring

/-- C4: with `entry_count ≥ 1` entries and a starting index in range, `next`
computes `(selected + 1) mod entry_count`, `previous` computes
`(selected - 1 + entry_count) mod entry_count` (written without integer
underflow as `(selected + entry_count - 1) mod entry_count`), and applying
either operation `entry_count` times returns `selected` to its original
value. -/
theorem next_previous_cyclic (a : App) (n : Nat) (hn : a.menu_items.length = n)
    (h1 : 1 ≤ n) (hs : a.selected < n) :
    a.next.selected = (a.selected + 1) % n ∧
    a.previous.selected = (a.selected + n - 1) % n ∧
    (iterOp App.next n a).selected = a.selected ∧
    (iterOp App.previous n a).selected = a.selected := by
  subst hn
  refine ⟨rfl, ?_, ?_, ?_⟩
  · rw [previous_selected a (by omega) hs]
    congr 1
    omega
  · rw [iter_next_selected _ a (by omega) hs, Nat.add_mod_right, Nat.mod_eq_of_lt hs]
  · rw [iter_previous_selected _ a (by omega) hs, Nat.add_mul_mod_self_left,
      Nat.mod_eq_of_lt hs]

/-- C4 witness: the cyclic property at the initial state with its 4 menu
entries. -/
theorem next_previous_cyclic_witness :
    App.new.next.selected = (App.new.selected + 1) % 4 ∧
    App.new.previous.selected = (App.new.selected + 4 - 1) % 4 ∧
    (iterOp App.next 4 App.new).selected = App.new.selected ∧
    (iterOp App.previous 4 App.new).selected = App.new.selected :=
  next_previous_cyclic App.new 4 rfl (by decide) (by decide)

/-- C5: construction establishes the invariant (`App::new` has 4 entries and
`selected = 0`), and under the precondition `entry_count ≥ 1` each operation
(`next`, `previous`, `open_selected`, `back_to_main`) preserves both the
entry count and the invariant that `selected` is a valid index; the
hypothesis `1 ≤ entry_count` is exactly what keeps the modulus taken by
`next`, and the subtraction taken by `previous`, away from zero. -/
theorem selected_index_invariant :
    (App.new.menu_items.length = 4 ∧ App.new.selected < App.new.menu_items.length) ∧
    (∀ a : App, 1 ≤ a.menu_items.length → a.selected < a.menu_items.length →
      (a.next.menu_items.length = a.menu_items.length ∧
        a.next.selected < a.next.menu_items.length) ∧
      (a.previous.menu_items.length = a.menu_items.length ∧
        a.previous.selected < a.previous.menu_items.length) ∧
      (a.open_selected.menu_items.length = a.menu_items.length ∧
        a.open_selected.selected < a.open_selected.menu_items.length) ∧
      (a.back_to_main.menu_items.length = a.menu_items.length ∧
        a.back_to_main.selected < a.back_to_main.menu_items.length)) := by
  refine ⟨⟨rfl, by decide⟩, fun a h1 hs => ⟨⟨rfl, ?_⟩, ⟨rfl, ?_⟩, ⟨rfl, hs⟩, ⟨rfl, hs⟩⟩⟩
  · exact Nat.mod_lt _ (by omega)
  · show (if a.selected = 0 then a.menu_items.length - 1 else a.selected - 1)
      < a.menu_items.length
    split <;> omega

/-- C5 witness: invariant preservation at the initial state. -/
theorem selected_index_invariant_witness :
    (App.new.next.menu_items.length = App.new.menu_items.length ∧
      App.new.next.selected < App.new.next.menu_items.length) ∧
    (App.new.previous.menu_items.length = App.new.menu_items.length ∧
      App.new.previous.selected < App.new.previous.menu_items.length) ∧
    (App.new.open_selected.menu_items.length = App.new.menu_items.length ∧
      App.new.open_selected.selected < App.new.open_selected.menu_items.length) ∧
    (App.new.back_to_main.menu_items.length = App.new.menu_items.length ∧
      App.new.back_to_main.selected < App.new.back_to_main.menu_items.length) :=
  selected_index_invariant.2 App.new (by decide) (by decide)

/-- C3: from `Main` with a valid `selected` index, the activate (Enter)
input opens the screen mapped from `selected` leaving `selected` unchanged,
and a following escape or home (h) input returns to `Main` with `selected`
intact; concretely, from the initial state the sequence down, down, enter
reaches the Obsidian screen with `selected = 2`, and a following escape
returns to `Main` with `selected` still 2. -/
theorem activate_then_return (a : App) (hscreen : a.screen = Screen.Main)
    (_hlen : a.menu_items.length = 4) (hsel : a.selected < 4) :
    step a (Ev.key KeyCode.enter) = StepResult.cont a.open_selected ∧
    a.open_selected.screen = screenOf a.selected ∧
    a.open_selected.selected = a.selected ∧
    step a.open_selected (Ev.key KeyCode.esc)
      = StepResult.cont a.open_selected.back_to_main ∧
    step a.open_selected (Ev.key (KeyCode.char 'h'))
      = StepResult.cont a.open_selected.back_to_main ∧
    a.open_selected.back_to_main.screen = Screen.Main ∧
    a.open_selected.back_to_main.selected = a.selected ∧
    runEvents App.new
        [Ev.key KeyCode.down, Ev.key KeyCode.down, Ev.key KeyCode.enter]
      = StepResult.cont ⟨App.new.menu_items, 2, Screen.Obsidian⟩ ∧
    runEvents App.new
        [Ev.key KeyCode.down, Ev.key KeyCode.down, Ev.key KeyCode.enter, Ev.key KeyCode.esc]
      = StepResult.cont ⟨App.new.menu_items, 2, Screen.Main⟩ := by
  have hnm : screenOf a.selected ≠ Screen.Main := by
    have hall : ∀ j, j < 4 → screenOf j ≠ Screen.Main := by decide
    exact hall a.selected hsel
  have hhq : ¬(('h' : Char) = 'q') := by decide
  refine ⟨?_, rfl, rfl, ?_, ?_, rfl, rfl, by decide, by decide⟩
  · simp [step, hscreen]
  · simp [step, App.open_selected, hnm]
  · simp [step, App.open_selected, hnm, hhq]

/-- C3 witness: activate and return at the initial state. -/
theorem activate_then_return_witness :
    step App.new (Ev.key KeyCode.enter) = StepResult.cont App.new.open_selected ∧
    App.new.open_selected.screen = screenOf App.new.selected ∧
    App.new.open_selected.selected = App.new.selected ∧
    step App.new.open_selected (Ev.key KeyCode.esc)
      = StepResult.cont App.new.open_selected.back_to_main ∧
    step App.new.open_selected (Ev.key (KeyCode.char 'h'))
      = StepResult.cont App.new.open_selected.back_to_main ∧
    App.new.open_selected.back_to_main.screen = Screen.Main ∧
    App.new.open_selected.back_to_main.selected = App.new.selected ∧
    runEvents App.new
        [Ev.key KeyCode.down, Ev.key KeyCode.down, Ev.key KeyCode.enter]
      = StepResult.cont ⟨App.new.menu_items, 2, Screen.Obsidian⟩ ∧
    runEvents App.new
        [Ev.key KeyCode.down, Ev.key KeyCode.down, Ev.key KeyCode.enter, Ev.key KeyCode.esc]
      = StepResult.cont ⟨App.new.menu_items, 2, Screen.Main⟩ :=
  activate_then_return App.new rfl rfl (by decide)

theorem step_cases (b b₂ : App) (e : Ev) (h : step b e = StepResult.cont b₂) :
    b₂ = b ∨ b₂ = b.next ∨ b₂ = b.previous ∨ b₂ = b.open_selected ∨ b₂ = b.back_to_main := by
  cases e with
  | key code =>
    simp only [step] at h
    split_ifs at h <;> cases h <;> simp
  | mouse => cases h; simp
  | resize => cases h; simp
  | focusGained => cases h; simp
  | focusLost => cases h; simp
  | paste => cases h; simp

theorem reachable_inv (a : App) (h : Reachable a) :
    a.menu_items.length = 4 ∧ a.selected < 4 ∧ a.screen ≠ Screen.Configuration := by
  induction h with
  | init => exact ⟨rfl, by decide, by decide⟩
  | step hr hstep ih =>
    rename_i b b₂ e
    obtain ⟨hm, hs, hc⟩ := ih
    have hall : ∀ j, j < 4 → screenOf j ≠ Screen.Configuration := by decide
    rcases step_cases b b₂ e hstep with hb | hb | hb | hb | hb <;> subst hb
    · exact ⟨hm, hs, hc⟩
    · refine ⟨hm, ?_, hc⟩
      show (b.selected + 1) % b.menu_items.length < 4
      rw [hm]
      exact Nat.mod_lt _ (by omega)
    · refine ⟨hm, ?_, hc⟩
      show (if b.selected = 0 then b.menu_items.length - 1 else b.selected - 1) < 4
      rw [hm]
      split <;> omega
    · exact ⟨hm, hs, hall b.selected hs⟩
    · exact ⟨hm, hs, fun hcon => by cases hcon⟩

/-- C9: the startup menu has exactly 4 entries while the selection mapping
defines a 5th screen (index 4 maps to Configuration); every state reachable
from the initial state through the state machine keeps `selected` in
`[0, 4)`, so no reachable state has the Configuration screen. -/
theorem configuration_screen_unreachable :
    App.new.menu_items.length = 4 ∧ screenOf 4 = Screen.Configuration ∧
    (∀ a : App, Reachable a → a.screen ≠ Screen.Configuration) :=
  ⟨rfl, rfl, fun a h => (reachable_inv a h).2.2⟩

/-- C9 witness: the initial state is reachable and is not on the
Configuration screen. -/
theorem configuration_screen_unreachable_witness :
    App.new.screen ≠ Screen.Configuration :=
  configuration_screen_unreachable.2.2 App.new Reachable.init

/-- C8: when the restore operations themselves succeed, both exit paths of
`main` — clean quit and a failure returned by `run_app` — perform the
terminal restore actions (`disable_raw_mode` and leaving the alternate
screen) before the process exits, and the exit code is 0 exactly on clean
quit; moreover exit code 0 is only possible when every setup and teardown
operation succeeded, so any unrecoverable setup/teardown error exits
non-zero. -/
theorem main_restores_terminal_and_exit_codes (env : TermEnv) :
    (env.enableRawOk = true → env.enterAltOk = true → env.newTermOk = true →
      env.disableRawOk = true → env.leaveAltOk = true → env.showCursorOk = true →
      TermAction.disableRaw ∈ (mainProc env).1 ∧
      TermAction.leaveAltScreen ∈ (mainProc env).1 ∧
      ((mainProc env).2 = 0 ↔ env.runAppOk = true)) ∧
    ((mainProc env).2 = 0 →
      env.enableRawOk = true ∧ env.enterAltOk = true ∧ env.newTermOk = true ∧
      env.runAppOk = true ∧ env.disableRawOk = true ∧ env.leaveAltOk = true ∧
      env.showCursorOk = true) := by
  constructor
  · intro h1 h2 h3 h4 h5 h6
    cases hr : env.runAppOk <;>
      simp [mainProc, h1, h2, h3, h4, h5, h6, hr]
  · intro hz
    cases h1 : env.enableRawOk <;> cases h2 : env.enterAltOk <;> cases h3 : env.newTermOk <;>
      cases h4 : env.runAppOk <;> cases h5 : env.disableRawOk <;> cases h6 : env.leaveAltOk <;>
      cases h7 : env.showCursorOk <;>
      simp_all [mainProc]

/-- C8 witness: in the environment where every operation succeeds, the
restore actions are performed and the exit code is 0 precisely because
`run_app` returned cleanly. -/
theorem main_restores_terminal_and_exit_codes_witness :
    TermAction.disableRaw ∈ (mainProc ⟨true, true, true, true, true, true, true⟩).1 ∧
    TermAction.leaveAltScreen ∈ (mainProc ⟨true, true, true, true, true, true, true⟩).1 ∧
    ((mainProc ⟨true, true, true, true, true, true, true⟩).2 = 0 ↔
      TermEnv.runAppOk ⟨true, true, true, true, true, true, true⟩ = true) :=
  (main_restores_terminal_and_exit_codes ⟨true, true, true, true, true, true, true⟩).1
    rfl rfl rfl rfl rfl rfl

end Ducky
